import Mathlib

/-!
Verification development for the aviary microservice-standards repository.

The executable core of the repository is the shared auth library: the request
authorizer in auth/src/authorize.ts and the path helpers in
auth/src/path-normalization.ts. Both are embedded below as total Lean
functions over explicit data, with the secret store represented by the
observable behavior of each GetSecretValue call. Strings are treated at the
character level, so JavaScript index arithmetic on code units coincides with
List Char arithmetic for the paths and header values considered here.
-/

namespace Aviary

/-- Authorization result, after the TypeScript interface AuthResult in
auth/src/authorize.ts. The shipped interface declares method as the string
union of shared-key and none; the README of the library documents the wider
union that also includes legacy-api-gateway and legacy-bearer together with an
optional deprecation marker, so method is embedded as a String and the marker
as an Option that the shipped code never sets. -/
structure AuthResult where
  authorized : Bool
  method : String
  deprecation : Option String := Option.none
  deriving DecidableEq

/-- The failure value the authorizer returns on every unsuccessful path. -/
def authFail : AuthResult := ⟨false, "none", Option.none⟩

/-- The success value the authorizer returns on a shared key match. -/
def authOk : AuthResult := ⟨true, "shared-key", Option.none⟩

/-- Observable behaviors of one GetSecretValue call against the secret store:
the send may throw, succeed without a SecretString, return a SecretString that
JSON.parse rejects, or return a payload parsed as a flat key to value map. -/
inductive StoreBehavior where
  | value (kv : List (String × String))
  | noString
  | badJson
  | throws
  deriving DecidableEq

/-- Shallow embedding of getSecretValue in auth/src/authorize.ts. Any thrown
error, absent SecretString, or unparsable payload is caught and becomes null.
A present key whose value is the empty string also becomes null through the
JavaScript expression secrets[key] || null, the empty string being falsy. -/
def getSecretValue (store : String → StoreBehavior) (secretPath key : String) :
    Option String :=
  match store secretPath with
  | StoreBehavior.value kv =>
    match kv.lookup key with
    | Option.some v => if v = "" then Option.none else Option.some v
    | Option.none => Option.none
  | _ => Option.none

/-- Inbound API Gateway event, reduced to the headers field that
authorizeRequest reads. A missing headers object is Option.none. Header names
are looked up by exact key, as JavaScript bracket access does. -/
structure APIGatewayProxyEvent where
  headers : Option (List (String × String))
  deriving DecidableEq

/-- Exact-key header access, the model of event.headers?.[name]. -/
def headerGet (event : APIGatewayProxyEvent) (name : String) : Option String :=
  match event.headers with
  | Option.some hs => hs.lookup name
  | Option.none => Option.none

/-- JavaScript a || b on two possibly absent strings: an absent or empty left
operand selects the right operand. -/
def jsOr (a b : Option String) : Option String :=
  match a with
  | Option.some s => if s = "" then b else Option.some s
  | Option.none => b

/-- Character-level String.prototype.trim: strip whitespace characters from
both ends of the string. -/
def jsTrim (s : String) : String :=
  String.mk (((s.data.dropWhile Char.isWhitespace).reverse.dropWhile
    Char.isWhitespace).reverse)

/-- Options bag of authorizeRequest, with its one optional field. -/
structure AuthOptions where
  sharedKeyName : Option String
  deriving DecidableEq

/-- Key name the authorizer uses: the sharedKeyName option when supplied,
otherwise the constant AVIARY_SHARED_API_KEY, as in the destructuring default
of authorizeRequest. -/
def effectiveKeyName (options : Option AuthOptions) : String :=
  match options with
  | Option.some o =>
    match o.sharedKeyName with
    | Option.some n => n
    | Option.none => "AVIARY_SHARED_API_KEY"
  | Option.none => "AVIARY_SHARED_API_KEY"

/-- Shallow embedding of authorizeRequest in auth/src/authorize.ts. The store
argument gives the behavior of the secret store at each secret path, so the
try and catch around the lookup is represented by total handling of every
StoreBehavior inside getSecretValue. The local constants sharedKey and
trimmedKey of the source are inlined, and the truthiness test on expectedKey
is the test against the empty string, null being the Option.none branch. -/
def authorizeRequest (event : APIGatewayProxyEvent) (store : String → StoreBehavior)
    (secretPath : String) (options : Option AuthOptions) : AuthResult :=
  match jsOr (headerGet event "X-API-Key") (headerGet event "x-api-key") with
  | Option.none => authFail
  | Option.some sharedKey =>
    if sharedKey = "" then authFail
    else if jsTrim sharedKey = "" then authFail
    else
      match getSecretValue store secretPath (effectiveKeyName options) with
      | Option.some expectedKey =>
        if expectedKey ≠ "" ∧ jsTrim sharedKey = expectedKey then authOk else authFail
      | Option.none => authFail

/-- Character-level String.prototype.startsWith. -/
def strStartsWith (s pat : String) : Bool :=
  pat.data.isPrefixOf s.data

/-- Character-level String.prototype.substring from an index to the end. -/
def strDrop (s : String) (n : Nat) : String :=
  String.mk (s.data.drop n)

/-- The leading slash guard that normalizeApiPath applies twice. -/
def ensureSlash (rawPath : String) : String :=
  if strStartsWith rawPath "/" = true then rawPath else "/" ++ rawPath

/-- Shallow embedding of normalizeApiPath in auth/src/path-normalization.ts.
The local constants path and prefixPattern of the source are inlined. -/
def normalizeApiPath (rawPath servicePrefix : String) : String :=
  if rawPath = "" then "/"
  else if servicePrefix = "" then ensureSlash rawPath
  else if ensureSlash rawPath = "/" ++ servicePrefix
      ∨ strStartsWith (ensureSlash rawPath) ("/" ++ servicePrefix ++ "/") = true then
    if strDrop (ensureSlash rawPath) ("/" ++ servicePrefix).length = "" then "/"
    else strDrop (ensureSlash rawPath) ("/" ++ servicePrefix).length
  else ensureSlash rawPath

/-- Shallow embedding of extractApiVersion in auth/src/path-normalization.ts.
The regular expression anchored at the start matches a slash, the letter v,
one or more ASCII digits taken greedily, then a slash; backtracking inside
the digit run can never reach the required slash, so the match succeeds
exactly when the maximal digit run is nonempty and followed by a slash. -/
def extractApiVersion (normalizedPath : String) : Option String :=
  match normalizedPath.data with
  | '/' :: 'v' :: rest =>
    match rest.takeWhile Char.isDigit, rest.dropWhile Char.isDigit with
    | [], _ => Option.none
    | ds, '/' :: _ => Option.some (String.mk ('v' :: ds))
    | _, _ => Option.none
  | _ => Option.none

/-- Shallow embedding of isValidApiVersion in auth/src/path-normalization.ts. -/
def isValidApiVersion (normalizedPath : String) (expectedVersion : String := "v1") :
    Bool :=
  match extractApiVersion normalizedPath with
  | Option.none => true
  | Option.some v => v == expectedVersion

/-- Upsert of one header into an association list of headers, the model of
object spread with a fixed string key: when the key is already present every
entry under it is replaced in place, otherwise one entry is appended. -/
def setHeader (hs : List (String × String)) (k v : String) : List (String × String) :=
  if hs.any (fun p => p.1 == k) = true then
    hs.map (fun p => if p.1 == k then (k, v) else p)
  else hs ++ [(k, v)]

/-- Month names of the HTTP date format. -/
def monthNames : List String :=
  ["Jan", "Feb", "Mar", "Apr", "May", "Jun", "Jul", "Aug", "Sep", "Oct", "Nov", "Dec"]

/-- Weekday names of the HTTP date format, starting from Sunday. -/
def dayNames : List String :=
  ["Sun", "Mon", "Tue", "Wed", "Thu", "Fri", "Sat"]

/-- Weekday of a Gregorian civil date, 0 for Sunday, by the Sakamoto formula. -/
def dayOfWeek (y m d : Nat) : Nat :=
  let t := [0, 3, 2, 5, 0, 3, 5, 1, 4, 6, 2, 4]
  let y2 := if m < 3 then y - 1 else y
  (y2 + y2 / 4 - y2 / 100 + y2 / 400 + t.getD (m - 1) 0 + d) % 7

/-- Two-digit decimal rendering. -/
def pad2 (n : Nat) : String :=
  if n < 10 then "0" ++ toString n else toString n

/-- Modelled from the spec: the conversion of an ISO-8601 timestamp into the
HTTP-date format that the Sunset header carries. The implementation file
auth/src/deprecation.ts that the repository documents is not part of the
source tree here, so this follows the spec text: weekday and month names are
computed from the UTC calendar date, not from a locale. -/
def formatHttpDate (iso : String) : String :=
  match iso.splitOn "T" with
  | [datePart, timePart] =>
    match datePart.splitOn "-" with
    | [ys, ms, ds] =>
      let y := ys.toNat?.getD 0
      let m := ms.toNat?.getD 0
      let d := ds.toNat?.getD 0
      let time := (timePart.splitOn "Z").headD timePart
      dayNames.getD (dayOfWeek y m d) "Sun" ++ ", " ++ pad2 d ++ " "
        ++ monthNames.getD (m - 1) "Jan" ++ " " ++ toString y ++ " " ++ time ++ " GMT"
    | _ => iso
  | _ => iso

/-- Modelled from the spec: addDeprecationHeaders of auth/src/deprecation.ts
is documented by the repository but its implementation file is absent from
the source tree. Per the spec contract, when the authorization result carries
no deprecation marker the headers come back unchanged, and otherwise four
headers are set without duplication and without disturbing the others:
Sunset, Deprecation, Link and X-Auth-Method. -/
def addDeprecationHeaders (existingHeaders : List (String × String))
    (authResult : AuthResult) (sunsetDate : String) : List (String × String) :=
  match authResult.deprecation with
  | Option.none => existingHeaders
  | Option.some _ =>
    setHeader
      (setHeader
        (setHeader
          (setHeader existingHeaders "Sunset" (formatHttpDate sunsetDate))
          "Deprecation" "true")
        "Link" "<https://docs.chirpy.studio/auth-migration>; rel=\"deprecation\"")
      "X-Auth-Method" authResult.method

/-- A key is bound in a header list to exactly one value: some entry carries
the key, and every entry carrying the key is the given pair. -/
def hasBinding (hs : List (String × String)) (k v : String) : Prop :=
  hs.any (fun p => p.1 == k) = true ∧ ∀ p ∈ hs, p.1 = k → p = (k, v)

/-! Character-list facts about the string helpers. -/

/-- The Boolean prefix test holds exactly when the longer list extends the
shorter one. -/
theorem isPrefixOf_iff_exists (l₁ l₂ : List Char) :
    l₁.isPrefixOf l₂ = true ↔ ∃ t, l₁ ++ t = l₂ := by
  induction l₁ generalizing l₂ with
  | nil => simp [List.isPrefixOf]
  | cons a as ih =>
    cases l₂ with
    | nil => simp [List.isPrefixOf]
    | cons b bs =>
      simp only [List.isPrefixOf, Bool.and_eq_true, beq_iff_eq, ih, List.cons_append,
        List.cons.injEq]
      constructor
      · rintro ⟨rfl, t, rfl⟩
        exact ⟨t, rfl, rfl⟩
      · rintro ⟨t, rfl, rfl⟩
        exact ⟨rfl, t, rfl⟩

/-- Decomposition reading of strStartsWith. -/
theorem strStartsWith_iff (s pat : String) :
    strStartsWith s pat = true ↔ ∃ t, pat.data ++ t = s.data := by
  unfold strStartsWith
  exact isPrefixOf_iff_exists _ _

/-- Data view of strDrop. -/
theorem strDrop_data (s : String) (n : Nat) : (strDrop s n).data = s.data.drop n := rfl

/-- A string is empty exactly when its character list is. -/
theorem eq_empty_iff_data (s : String) : s = "" ↔ s.data = [] := by
  constructor
  · intro h
    rw [h]
  · intro h
    apply String.ext
    rw [h]

/-- Dropping the whole length leaves the empty string. -/
theorem strDrop_length_self (s : String) : strDrop s s.length = "" := by
  apply String.ext
  show s.data.drop s.data.length = ("" : String).data
  rw [List.drop_length]

/-- A string extended on the right of a slash starts with the slash. -/
theorem startsWith_slash_append (p : String) : strStartsWith ("/" ++ p) "/" = true := by
  rw [strStartsWith_iff]
  exact ⟨p.data, (String.data_append "/" p).symm⟩

/-- ensureSlash always yields a string starting with a slash. -/
theorem ensureSlash_startsWith (p : String) : strStartsWith (ensureSlash p) "/" = true := by
  unfold ensureSlash
  split
  · assumption
  · exact startsWith_slash_append p

/-- ensureSlash does not change a string that already starts with a slash. -/
theorem ensureSlash_of_startsWith {p : String} (h : strStartsWith p "/" = true) :
    ensureSlash p = p := by
  unfold ensureSlash
  rw [if_pos h]

/-- A string starting with a slash is nonempty. -/
theorem ne_empty_of_startsWith_slash {p : String} (h : strStartsWith p "/" = true) :
    p ≠ "" := by
  obtain ⟨t, ht⟩ := (strStartsWith_iff _ _).1 h
  intro he
  rw [eq_empty_iff_data] at he
  rw [he] at ht
  exact List.cons_ne_nil '/' t ht

/-- Stripping the pattern from a path that continues past it with a slash
leaves a string that starts with that slash. -/
theorem strDrop_of_startsWith {path pat : String}
    (h : strStartsWith path (pat ++ "/") = true) :
    ∃ t, (strDrop path pat.length).data = '/' :: t := by
  obtain ⟨t, ht⟩ := (strStartsWith_iff _ _).1 h
  refine ⟨t, ?_⟩
  rw [strDrop_data, ← ht, String.data_append, List.append_assoc]
  show List.drop pat.data.length (pat.data ++ (("/" : String).data ++ t)) = '/' :: t
  rw [List.drop_left]
  rfl

/-- Conversely, a slash-headed character list makes the prefix test succeed. -/
theorem strStartsWith_of_data_cons {s : String} {t : List Char}
    (h : s.data = '/' :: t) : strStartsWith s "/" = true := by
  rw [strStartsWith_iff]
  refine ⟨t, ?_⟩
  rw [h]
  rfl

/-- Every output of normalizeApiPath starts with a slash. -/
theorem normalizeApiPath_startsWith_slash (p s : String) :
    strStartsWith (normalizeApiPath p s) "/" = true := by
  unfold normalizeApiPath
  split
  · decide
  split
  · exact ensureSlash_startsWith p
  split
  · split
    · decide
    · rename_i hcond hne
      rcases hcond with heq | hsw
      · exact absurd (by rw [heq]; exact strDrop_length_self _) hne
      · obtain ⟨t, ht⟩ := strDrop_of_startsWith hsw
        exact strStartsWith_of_data_cons ht
  · exact ensureSlash_startsWith p

/-- Claim C2 (counterexample): normalizeApiPath is not idempotent as claimed.
On a path that carries the service prefix twice, the first call strips one
copy and a second call strips another, so applying the function to its own
output changes the string again. -/
theorem normalizeApiPath_not_idempotent :
    ¬ (normalizeApiPath
        (normalizeApiPath "/nightingale/nightingale/v1/mix/jobs" "nightingale")
        "nightingale"
      = normalizeApiPath "/nightingale/nightingale/v1/mix/jobs" "nightingale") := by
  decide

/-- Claim C2 (amended): normalizeApiPath is idempotent for every rawPath p and
servicePrefix s whose first normalization does not itself carry the prefix
pattern again as a full leading segment, that is, whenever the result neither
equals slash plus s nor starts with slash plus s plus slash. -/
theorem normalizeApiPath_idem_of_not_reprefixed (p s : String)
    (h : ¬ (normalizeApiPath p s = "/" ++ s
        ∨ strStartsWith (normalizeApiPath p s) ("/" ++ s ++ "/") = true)) :
    normalizeApiPath (normalizeApiPath p s) s = normalizeApiPath p s := by
  have hsw := normalizeApiPath_startsWith_slash p s
  have hne := ne_empty_of_startsWith_slash hsw
  have hes := ensureSlash_of_startsWith hsw
  set o := normalizeApiPath p s with ho
  unfold normalizeApiPath
  rw [if_neg hne]
  by_cases hs0 : s = ""
  · rw [if_pos hs0, hes]
  · rw [if_neg hs0, hes, if_neg h]

/-- Witness for the amended claim C2 at the spec scenario path. -/
theorem normalizeApiPath_idem_of_not_reprefixed_witness :
    normalizeApiPath (normalizeApiPath "/nightingale/v1/mix/jobs" "nightingale")
      "nightingale"
    = normalizeApiPath "/nightingale/v1/mix/jobs" "nightingale" :=
  normalizeApiPath_idem_of_not_reprefixed "/nightingale/v1/mix/jobs" "nightingale"
    (by decide)

/-- Claim C6: normalizeApiPath strips the prefix pattern only when the
slash-normalized path equals the pattern exactly, with result the root slash,
or starts with the pattern followed by a slash, with result the verbatim
remainder from that slash; any other path comes back slash-normalized but
otherwise unchanged. -/
theorem normalizeApiPath_segment_exact (rawPath servicePrefix : String)
    (hp : rawPath ≠ "") (hs : servicePrefix ≠ "") :
    (ensureSlash rawPath = "/" ++ servicePrefix →
      normalizeApiPath rawPath servicePrefix = "/")
    ∧ (strStartsWith (ensureSlash rawPath) ("/" ++ servicePrefix ++ "/") = true →
      normalizeApiPath rawPath servicePrefix
        = strDrop (ensureSlash rawPath) ("/" ++ servicePrefix).length)
    ∧ (¬ (ensureSlash rawPath = "/" ++ servicePrefix
        ∨ strStartsWith (ensureSlash rawPath) ("/" ++ servicePrefix ++ "/") = true) →
      normalizeApiPath rawPath servicePrefix = ensureSlash rawPath) := by
  refine ⟨?_, ?_, ?_⟩
  · intro heq
    unfold normalizeApiPath
    rw [if_neg hp, if_neg hs, if_pos (Or.inl heq),
      if_pos (by rw [heq]; exact strDrop_length_self _)]
  · intro hsw
    obtain ⟨t, ht⟩ := strDrop_of_startsWith hsw
    have hne : strDrop (ensureSlash rawPath) ("/" ++ servicePrefix).length ≠ "" := by
      intro he
      rw [eq_empty_iff_data, ht] at he
      exact List.cons_ne_nil '/' t he
    unfold normalizeApiPath
    rw [if_neg hp, if_neg hs, if_pos (Or.inr hsw), if_neg hne]
  · intro hcond
    unfold normalizeApiPath
    rw [if_neg hp, if_neg hs, if_neg hcond]

/-- Witness for claim C6: a segment that merely begins with the prefix
characters, nightingale-extra against nightingale, is returned unchanged. -/
theorem normalizeApiPath_segment_exact_witness :
    normalizeApiPath "/nightingale-extra/v1/jobs" "nightingale"
      = "/nightingale-extra/v1/jobs" := by
  have h := (normalizeApiPath_segment_exact "/nightingale-extra/v1/jobs" "nightingale"
    (by decide) (by decide)).2.2 (by decide)
  rw [h]
  decide

/-! Facts about the version helpers. -/

/-- Taking digits from a digit run closed by a slash returns the run. -/
theorem takeWhile_digits (ds rest : List Char) (h : ∀ c ∈ ds, c.isDigit = true) :
    (ds ++ '/' :: rest).takeWhile Char.isDigit = ds := by
  induction ds with
  | nil => exact List.takeWhile_cons_of_neg (by decide)
  | cons c cs ih =>
    rw [List.cons_append, List.takeWhile_cons_of_pos (h c (List.mem_cons_self c cs)),
      ih (fun x hx => h x (List.mem_cons_of_mem c hx))]

/-- Dropping digits from a digit run closed by a slash reaches the slash. -/
theorem dropWhile_digits (ds rest : List Char) (h : ∀ c ∈ ds, c.isDigit = true) :
    (ds ++ '/' :: rest).dropWhile Char.isDigit = '/' :: rest := by
  induction ds with
  | nil => exact List.dropWhile_cons_of_neg (by decide)
  | cons c cs ih =>
    rw [List.cons_append, List.dropWhile_cons_of_pos (h c (List.mem_cons_self c cs))]
    exact ih (fun x hx => h x (List.mem_cons_of_mem c hx))

/-- Claim C7: extractApiVersion returns the letter v followed by the digits of
a leading version segment exactly when the path starts with a slash, the
letter v, a nonempty digit run, and a closing slash; in particular it is null
on non-versioned paths, on markers after position 0, and on the malformed
markers of the spec. -/
theorem extractApiVersion_spec :
    (∀ (p v : String), extractApiVersion p = Option.some v ↔
      ∃ ds rest, p.data = '/' :: 'v' :: (ds ++ '/' :: rest)
        ∧ ds ≠ [] ∧ (∀ c ∈ ds, c.isDigit = true) ∧ v = String.mk ('v' :: ds))
    ∧ extractApiVersion "/v10/test" = Option.some "v10"
    ∧ extractApiVersion "/api/v1/test" = Option.none
    ∧ extractApiVersion "/v/test" = Option.none
    ∧ extractApiVersion "/vX/test" = Option.none
    ∧ extractApiVersion "/v1test" = Option.none := by
  refine ⟨?_, by decide, by decide, by decide, by decide, by decide⟩
  intro p v
  constructor
  · intro h
    unfold extractApiVersion at h
    split at h
    · rename_i rest hdata
      split at h
      · exact absurd h (by simp)
      · rename_i ds tail hds htail
        refine ⟨rest.takeWhile Char.isDigit, tail, ?_, htail, ?_, ?_⟩
        · have hrest : rest = rest.takeWhile Char.isDigit ++ '/' :: tail := by
            conv_lhs => rw [← List.takeWhile_append_dropWhile Char.isDigit rest]
            rw [hds]
          exact hdata.trans (by rw [← hrest])
        · intro c hc
          exact List.mem_takeWhile_imp hc
        · exact (Option.some.inj h).symm
      · exact absurd h (by simp)
    · exact absurd h (by simp)
  · rintro ⟨ds, rest, hdata, hnil, hdig, rfl⟩
    rcases ds with _ | ⟨d, dt⟩
    · exact absurd rfl hnil
    · have h1 := takeWhile_digits (d :: dt) rest hdig
      have h2 := dropWhile_digits (d :: dt) rest hdig
      unfold extractApiVersion
      rw [hdata]
      simp only [h1, h2]

/-- Claim C8: isValidApiVersion is true exactly when the extracted version is
null or equals the expected version; non-versioned paths such as the health
endpoint are always valid, and a v2 path is invalid against v1. -/
theorem isValidApiVersion_spec :
    (∀ (p e : String), isValidApiVersion p e = true ↔
      (extractApiVersion p = Option.none ∨ extractApiVersion p = Option.some e))
    ∧ isValidApiVersion "/health" = true
    ∧ isValidApiVersion "/v2/x" "v1" = false := by
  refine ⟨?_, by decide, by decide⟩
  intro p e
  unfold isValidApiVersion
  cases hx : extractApiVersion p with
  | none => simp
  | some v => simp [beq_iff_eq]

/-! Facts about the authorizer. -/

/-- Every authorization outcome is one of the two literal result values. -/
theorem authorizeRequest_cases (event : APIGatewayProxyEvent)
    (store : String → StoreBehavior) (secretPath : String)
    (options : Option AuthOptions) :
    authorizeRequest event store secretPath options = authOk
      ∨ authorizeRequest event store secretPath options = authFail := by
  unfold authorizeRequest
  repeat' split
  all_goals first | exact Or.inl rfl | exact Or.inr rfl

/-- A store call that throws is caught and read as a missing value. -/
theorem getSecretValue_none_of_throws {store : String → StoreBehavior}
    {secretPath : String} (key : String)
    (h : store secretPath = StoreBehavior.throws) :
    getSecretValue store secretPath key = Option.none := by
  unfold getSecretValue
  rw [h]

/-- When no secret value is available the authorizer fails closed. -/
theorem authorizeRequest_fail_of_no_secret {store : String → StoreBehavior}
    {secretPath : String} {options : Option AuthOptions}
    (event : APIGatewayProxyEvent)
    (h : getSecretValue store secretPath (effectiveKeyName options) = Option.none) :
    authorizeRequest event store secretPath options = authFail := by
  unfold authorizeRequest
  rw [h]
  repeat' split
  all_goals first | rfl | simp_all

/-- Claim C1: authorizeRequest never throws; for every request event, secret
path, options and secret store behavior the result is one of the two literal
values, and both a throwing lookup and a missing key resolve to the
unauthorized value with method none. -/
theorem authorizeRequest_never_throws (event : APIGatewayProxyEvent)
    (store : String → StoreBehavior) (secretPath : String)
    (options : Option AuthOptions) :
    (authorizeRequest event store secretPath options = authOk
      ∨ authorizeRequest event store secretPath options = authFail)
    ∧ (store secretPath = StoreBehavior.throws →
        authorizeRequest event store secretPath options = authFail)
    ∧ (getSecretValue store secretPath (effectiveKeyName options) = Option.none →
        authorizeRequest event store secretPath options = authFail) := by
  refine ⟨authorizeRequest_cases event store secretPath options, ?_, ?_⟩
  · intro h
    exact authorizeRequest_fail_of_no_secret event (getSecretValue_none_of_throws _ h)
  · intro h
    exact authorizeRequest_fail_of_no_secret event h

/-- Witness for claim C1: a throwing store resolves to the failure value. -/
theorem authorizeRequest_never_throws_witness :
    authorizeRequest ⟨Option.some [("X-API-Key", "valid-shared-key-12345")]⟩
      (fun _ => StoreBehavior.throws) "/aviary/shared/api-key" Option.none
    = authFail :=
  (authorizeRequest_never_throws ⟨Option.some [("X-API-Key", "valid-shared-key-12345")]⟩
    (fun _ => StoreBehavior.throws) "/aviary/shared/api-key" Option.none).2.1 rfl

/-- A present, nonblank credential matching the stored value authorizes. -/
theorem authorizeRequest_ok_of {event : APIGatewayProxyEvent}
    {store : String → StoreBehavior} {secretPath : String}
    {options : Option AuthOptions} {v : String}
    (hget : jsOr (headerGet event "X-API-Key") (headerGet event "x-api-key")
      = Option.some v)
    (hv : v ≠ "") (ht : jsTrim v ≠ "")
    (hs : getSecretValue store secretPath (effectiveKeyName options)
      = Option.some (jsTrim v)) :
    authorizeRequest event store secretPath options = authOk := by
  simp only [authorizeRequest, hget, hs]
  simp [hv, ht]

/-- Claim C3: under either exact casing of the credential header, a value that
is nonblank after trimming and whose trimmed form equals the string the store
returns under the effective key name yields the authorized shared-key
result. -/
theorem shared_key_match_authorizes (casing v secretPath : String)
    (store : String → StoreBehavior) (options : Option AuthOptions)
    (hc : casing = "X-API-Key" ∨ casing = "x-api-key")
    (ht : jsTrim v ≠ "")
    (hs : getSecretValue store secretPath (effectiveKeyName options)
      = Option.some (jsTrim v)) :
    authorizeRequest ⟨Option.some [(casing, v)]⟩ store secretPath options = authOk := by
  have hv : v ≠ "" := by
    intro h
    apply ht
    rw [h]
    decide
  rcases hc with rfl | rfl
  · refine authorizeRequest_ok_of ?_ hv ht hs
    show (if v = "" then Option.none else Option.some v) = Option.some v
    rw [if_neg hv]
  · exact authorizeRequest_ok_of rfl hv ht hs

/-- Witness for claim C3 at the spec scenario. -/
theorem shared_key_match_authorizes_witness :
    authorizeRequest ⟨Option.some [("X-API-Key", "valid-shared-key-12345")]⟩
      (fun _ => StoreBehavior.value [("AVIARY_SHARED_API_KEY", "valid-shared-key-12345")])
      "/aviary/shared/api-key" Option.none = authOk :=
  shared_key_match_authorizes "X-API-Key" "valid-shared-key-12345"
    "/aviary/shared/api-key"
    (fun _ => StoreBehavior.value [("AVIARY_SHARED_API_KEY", "valid-shared-key-12345")])
    Option.none (Or.inl rfl) (by decide) (by decide)

/-- Claim C4: a credential that is absent, empty, or whitespace-only is
rejected regardless of the store contents. The hypothesis states that the
effective credential the source reads, the X-API-Key header with fallback to
x-api-key, trims to the empty string whenever it is present at all. -/
theorem blank_credential_unauthorized (event : APIGatewayProxyEvent)
    (store : String → StoreBehavior) (secretPath : String)
    (options : Option AuthOptions)
    (h : ∀ v, jsOr (headerGet event "X-API-Key") (headerGet event "x-api-key")
        = Option.some v → jsTrim v = "") :
    authorizeRequest event store secretPath options = authFail := by
  unfold authorizeRequest
  cases hj : jsOr (headerGet event "X-API-Key") (headerGet event "x-api-key") with
  | none => rfl
  | some v =>
    have ht := h v hj
    simp [ht]

/-- Witness for claim C4: a whitespace-only credential is rejected even though
the store holds a value. -/
theorem blank_credential_unauthorized_witness :
    authorizeRequest ⟨Option.some [("x-api-key", "   ")]⟩
      (fun _ => StoreBehavior.value [("AVIARY_SHARED_API_KEY", "secret-value")])
      "/aviary/shared/api-key" Option.none = authFail := by
  apply blank_credential_unauthorized
  intro v hv
  have h2 : Option.some "   " = Option.some v := hv
  rw [← Option.some.inj h2]
  decide

/-- Claim C5: in every result authorizeRequest can return, the method is the
string none exactly when authorized is false. -/
theorem method_none_iff_not_authorized (event : APIGatewayProxyEvent)
    (store : String → StoreBehavior) (secretPath : String)
    (options : Option AuthOptions) :
    (authorizeRequest event store secretPath options).method = "none"
      ↔ (authorizeRequest event store secretPath options).authorized = false := by
  rcases authorizeRequest_cases event store secretPath options with h | h <;>
    rw [h] <;> decide

/-- Claim C10: the shipped authorizer only ever returns the shared-key or the
none method and never attaches a deprecation marker; the legacy methods of
the documented wider contract are unreachable. -/
theorem authorizeRequest_methods_closed (event : APIGatewayProxyEvent)
    (store : String → StoreBehavior) (secretPath : String)
    (options : Option AuthOptions) :
    ((authorizeRequest event store secretPath options).method = "shared-key"
      ∨ (authorizeRequest event store secretPath options).method = "none")
    ∧ (authorizeRequest event store secretPath options).method ≠ "legacy-api-gateway"
    ∧ (authorizeRequest event store secretPath options).method ≠ "legacy-bearer"
    ∧ (authorizeRequest event store secretPath options).deprecation = Option.none := by
  rcases authorizeRequest_cases event store secretPath options with h | h <;>
    rw [h] <;> refine ⟨by decide, by decide, by decide, by decide⟩

/-! Facts about the header upsert. -/

/-- After an upsert the key is bound to exactly the written value. -/
theorem setHeader_hasBinding (hs : List (String × String)) (k v : String) :
    hasBinding (setHeader hs k v) k v := by
  unfold setHeader hasBinding
  split
  · rename_i hany
    constructor
    · rw [List.any_eq_true] at hany ⊢
      obtain ⟨p, hp, hpk⟩ := hany
      exact ⟨(k, v), List.mem_map.2 ⟨p, hp, by rw [if_pos hpk]⟩, by simp⟩
    · intro q hq hqk
      obtain ⟨p, hp, hfp⟩ := List.mem_map.1 hq
      by_cases hpk : (p.1 == k) = true
      · rw [← hfp, if_pos hpk]
      · rw [← hfp, if_neg hpk] at hqk
        exact absurd hqk (by simpa using hpk)
  · rename_i hany
    constructor
    · rw [List.any_eq_true]
      exact ⟨(k, v), List.mem_append_right _ (List.mem_singleton.2 rfl), by simp⟩
    · intro q hq hqk
      rcases List.mem_append.1 hq with hq1 | hq2
      · exact absurd (List.any_eq_true.2 ⟨q, hq1, by simp [hqk]⟩) hany
      · exact List.mem_singleton.1 hq2

/-- Upserting a key that is already bound to the same value changes nothing. -/
theorem setHeader_eq_of_hasBinding {hs : List (String × String)} {k v : String}
    (h : hasBinding hs k v) : setHeader hs k v = hs := by
  unfold setHeader
  rw [if_pos h.1]
  have hid : ∀ p ∈ hs, (if p.1 == k then (k, v) else p) = id p := by
    intro p hp
    by_cases hpk : (p.1 == k) = true
    · rw [if_pos hpk]
      exact (h.2 p hp (by simpa using hpk)).symm
    · rw [if_neg hpk]
      rfl
  rw [List.map_congr_left hid, List.map_id]

/-- An upsert under a different key preserves an existing binding. -/
theorem hasBinding_setHeader_other (hs : List (String × String)) (k v k2 v2 : String)
    (hne : k ≠ k2) (h : hasBinding hs k v) : hasBinding (setHeader hs k2 v2) k v := by
  obtain ⟨hany, hall⟩ := h
  unfold setHeader
  split
  · constructor
    · rw [List.any_eq_true] at hany ⊢
      obtain ⟨p, hp, hpk⟩ := hany
      have hp1 : p.1 = k := by simpa using hpk
      refine ⟨p, List.mem_map.2 ⟨p, hp, ?_⟩, hpk⟩
      rw [if_neg ?_]
      intro hb
      exact hne (hp1.symm.trans (by simpa using hb))
    · intro q hq hqk
      obtain ⟨p, hp, hfp⟩ := List.mem_map.1 hq
      by_cases hpk2 : (p.1 == k2) = true
      · rw [← hfp, if_pos hpk2] at hqk
        exact absurd hqk.symm hne
      · rw [← hfp, if_neg hpk2] at hqk ⊢
        exact hall p hp hqk
  · constructor
    · rw [List.any_eq_true] at hany ⊢
      obtain ⟨p, hp, hpk⟩ := hany
      exact ⟨p, List.mem_append_left _ hp, hpk⟩
    · intro q hq hqk
      rcases List.mem_append.1 hq with hq1 | hq2
      · exact hall q hq1 hqk
      · rw [List.mem_singleton.1 hq2] at hqk
        exact absurd hqk.symm hne

/-- An upsert under a different key keeps an entry in the list. -/
theorem setHeader_mem_other {hs : List (String × String)} {k v : String}
    {p : String × String} (hp : p ∈ hs) (hne : p.1 ≠ k) : p ∈ setHeader hs k v := by
  unfold setHeader
  split
  · exact List.mem_map.2 ⟨p, hp, by rw [if_neg (by simpa using hne)]⟩
  · exact List.mem_append_left _ hp

/-- Setting the four deprecation headers a second time changes nothing. -/
theorem setFour_idem (hs : List (String × String)) (w1 w2 w3 w4 : String) :
    setHeader (setHeader (setHeader (setHeader
        (setHeader (setHeader (setHeader (setHeader hs "Sunset" w1)
          "Deprecation" w2) "Link" w3) "X-Auth-Method" w4)
      "Sunset" w1) "Deprecation" w2) "Link" w3) "X-Auth-Method" w4
    = setHeader (setHeader (setHeader (setHeader hs "Sunset" w1)
        "Deprecation" w2) "Link" w3) "X-Auth-Method" w4 := by
  have b1 := setHeader_hasBinding hs "Sunset" w1
  have b2 := setHeader_hasBinding (setHeader hs "Sunset" w1) "Deprecation" w2
  have b3 := setHeader_hasBinding
    (setHeader (setHeader hs "Sunset" w1) "Deprecation" w2) "Link" w3
  have b4 := setHeader_hasBinding
    (setHeader (setHeader (setHeader hs "Sunset" w1) "Deprecation" w2) "Link" w3)
    "X-Auth-Method" w4
  have c1 := hasBinding_setHeader_other _ _ _ "X-Auth-Method" w4 (by decide)
    (hasBinding_setHeader_other _ _ _ "Link" w3 (by decide)
      (hasBinding_setHeader_other _ _ _ "Deprecation" w2 (by decide) b1))
  have c2 := hasBinding_setHeader_other _ _ _ "X-Auth-Method" w4 (by decide)
    (hasBinding_setHeader_other _ _ _ "Link" w3 (by decide) b2)
  have c3 := hasBinding_setHeader_other _ _ _ "X-Auth-Method" w4 (by decide) b3
  rw [setHeader_eq_of_hasBinding c1, setHeader_eq_of_hasBinding c2,
    setHeader_eq_of_hasBinding c3, setHeader_eq_of_hasBinding b4]

/-- Claim C9: the deprecation header injector is idempotent and
non-destructive. Without a deprecation marker the headers come back exactly
unchanged; with one, applying the injector twice with the same inputs yields
the same header list as applying it once, and every existing header whose
name is not among the four injected ones is still present. -/
theorem addDeprecationHeaders_spec (hs : List (String × String)) (r : AuthResult)
    (d : String) :
    (r.deprecation = Option.none → addDeprecationHeaders hs r d = hs)
    ∧ addDeprecationHeaders (addDeprecationHeaders hs r d) r d
        = addDeprecationHeaders hs r d
    ∧ (∀ p ∈ hs, p.1 ≠ "Sunset" → p.1 ≠ "Deprecation" → p.1 ≠ "Link" →
        p.1 ≠ "X-Auth-Method" → p ∈ addDeprecationHeaders hs r d) := by
  cases hr : r.deprecation with
  | none =>
    refine ⟨fun _ => ?_, ?_, ?_⟩
    · simp [addDeprecationHeaders, hr]
    · simp [addDeprecationHeaders, hr]
    · intro p hp h1 h2 h3 h4
      simpa [addDeprecationHeaders, hr] using hp
  | some dep =>
    refine ⟨?_, ?_, ?_⟩
    · intro h0
      exact Option.noConfusion h0
    · simp only [addDeprecationHeaders, hr]
      exact setFour_idem hs (formatHttpDate d) "true"
        "<https://docs.chirpy.studio/auth-migration>; rel=\"deprecation\"" r.method
    · intro p hp h1 h2 h3 h4
      simp only [addDeprecationHeaders, hr]
      exact setHeader_mem_other
        (setHeader_mem_other (setHeader_mem_other (setHeader_mem_other hp h1) h2) h3) h4

/-- Witness for claim C9: a second application over a legacy result with a
deprecation marker reproduces the headers of the first application. -/
theorem addDeprecationHeaders_spec_witness :
    addDeprecationHeaders
      (addDeprecationHeaders [("Content-Type", "application/json")]
        ⟨true, "legacy-bearer", Option.some "2025-12-31"⟩ "2025-06-15T14:30:00Z")
      ⟨true, "legacy-bearer", Option.some "2025-12-31"⟩ "2025-06-15T14:30:00Z"
    = addDeprecationHeaders [("Content-Type", "application/json")]
        ⟨true, "legacy-bearer", Option.some "2025-12-31"⟩ "2025-06-15T14:30:00Z" :=
  (addDeprecationHeaders_spec [("Content-Type", "application/json")]
    ⟨true, "legacy-bearer", Option.some "2025-12-31"⟩ "2025-06-15T14:30:00Z").2.1

end Aviary
